import Mathlib

/-!
Verification of the flashflood-dashboard core hooks.

The TypeScript sources are shallowly embedded: JS strings become Lean
Strings, JS numbers carrying event peaks become rationals together with a
finiteness flag (Number.isFinite), nullable values become Option, and the
per-tab record objects become association lists.  Array.prototype.sort with
a comparator is embedded as a stable insertion sort, which by uniqueness of
stable sorting agrees with the ECMAScript specification of sort.
-/

namespace FF

/-- Station entity as returned by /api/stations (src/app/types/index.ts). -/
structure Station where
  station_id : String
  latitude : Option ℚ
  longitude : Option ℚ
  basin_name : Option String
  river_name : Option String
  station_name : Option String
  station_name2 : Option String
  station_name3 : Option String
  description : Option String
  has_data : Nat
deriving DecidableEq

/-- One matched flood event point (src/app/types/index.ts, StationMatchedPoint).
The JS number peak_value is modelled as a rational plus a Boolean recording
Number.isFinite(peak_value). -/
structure StationMatchedPoint where
  id : Int
  peak_time : String
  peak_value : ℚ
  peak_finite : Bool
  peak_time_str : Option String
deriving DecidableEq

/-- Chart bucket for the seasonal histogram (src/app/map/types). -/
structure MonthlyFrequencyPoint where
  month : Nat
  count : Nat
deriving DecidableEq

/-- Chart point for the exceedance ranking (src/app/map/types). -/
structure PeakDistributionPoint where
  rank : Nat
  peak_value : ℚ
deriving DecidableEq

/-! ### Monthly frequency projection (src/hooks/useStationEvents.ts, monthlyFrequency) -/

/-- The twelve zero-initialised buckets created by Array.from with length 12:
month is the index plus one, count starts at zero. -/
def initMonthCounts : List MonthlyFrequencyPoint :=
  (List.range 12).map fun monthIndex => ⟨monthIndex + 1, 0⟩

/-- In-place increment of the count at a month index, the embedding of
monthCounts[month].count += 1. -/
def bumpMonth : List MonthlyFrequencyPoint → Nat → List MonthlyFrequencyPoint
  | [], _ => []
  | e :: es, 0 => ⟨e.month, e.count + 1⟩ :: es
  | e :: es, m + 1 => e :: bumpMonth es m

/-- The monthlyFrequency projection of useStationEvents.  The composite JS
call Date.parse followed by getMonth is abstracted by parseMonth: none models
an unparseable timestamp (Date.parse gave NaN), some m the zero-based
calendar month. -/
def monthlyFrequency (parseMonth : String → Option (Fin 12))
    (matchedSeries : List StationMatchedPoint) : List MonthlyFrequencyPoint :=
  matchedSeries.foldl
    (fun acc item =>
      match parseMonth item.peak_time with
      | none => acc
      | some m => bumpMonth acc m.val)
    initMonthCounts

/-! ### Peak distribution projection (src/hooks/useStationEvents.ts, peakDistribution) -/

/-- Ordering relation induced by the JS comparator (a, b) => b.peak_value -
a.peak_value on finite values: a may precede b when b.peak_value <=
a.peak_value. -/
def peakGE (a b : StationMatchedPoint) : Prop :=
  b.peak_value ≤ a.peak_value

instance : DecidableRel peakGE := fun a b =>
  inferInstanceAs (Decidable (b.peak_value ≤ a.peak_value))

instance : IsTotal StationMatchedPoint peakGE :=
  ⟨fun a b => le_total b.peak_value a.peak_value⟩

instance : IsTrans StationMatchedPoint peakGE :=
  ⟨fun _ _ _ hab hbc => le_trans hbc hab⟩

/-- Stable descending sort by peak value, the embedding of
Array.prototype.sort((a, b) => b.peak_value - a.peak_value). -/
def sortByPeakDesc (l : List StationMatchedPoint) : List StationMatchedPoint :=
  List.insertionSort peakGE l

/-- The peakDistribution projection: drop non-finite peaks, stable-sort
descending, then rank by position (map with index, rank = index + 1). -/
def peakDistribution (matchedSeries : List StationMatchedPoint) : List PeakDistributionPoint :=
  ((sortByPeakDesc (matchedSeries.filter fun item => item.peak_finite)).enum).map
    fun ip => ⟨ip.1 + 1, ip.2.peak_value⟩

/-- The concrete series of the distribution-ranking example: peaks 3, 7, 7, 1
with ids 1..4 recording input positions. -/
def examplePeakSeries : List StationMatchedPoint :=
  [⟨1, "a", 3, true, none⟩, ⟨2, "b", 7, true, none⟩,
   ⟨3, "c", 7, true, none⟩, ⟨4, "d", 1, true, none⟩]

/-! ### Helper lemmas for the projections -/

theorem bumpMonth_length (l : List MonthlyFrequencyPoint) (m : Nat) :
    (bumpMonth l m).length = l.length := by
  induction l generalizing m with
  | nil => rfl
  | cons e es ih =>
    cases m with
    | zero => rfl
    | succ m => simpa [bumpMonth] using ih m

theorem bumpMonth_map_month (l : List MonthlyFrequencyPoint) (m : Nat) :
    (bumpMonth l m).map (·.month) = l.map (·.month) := by
  induction l generalizing m with
  | nil => rfl
  | cons e es ih =>
    cases m with
    | zero => rfl
    | succ m => simpa [bumpMonth] using ih m

theorem bumpMonth_sum (l : List MonthlyFrequencyPoint) (m : Nat) (h : m < l.length) :
    ((bumpMonth l m).map (·.count)).sum = ((l.map (·.count)).sum) + 1 := by
  induction l generalizing m with
  | nil => simp at h
  | cons e es ih =>
    cases m with
    | zero => simp [bumpMonth, Nat.add_comm, Nat.add_left_comm, Nat.add_assoc]
    | succ m =>
      have hm : m < es.length := by simpa using h
      simp [bumpMonth, ih m hm, Nat.add_assoc]

theorem monthlyFrequency_foldl_length (parseMonth : String → Option (Fin 12))
    (series : List StationMatchedPoint) (acc : List MonthlyFrequencyPoint) :
    (series.foldl
      (fun acc item =>
        match parseMonth item.peak_time with
        | none => acc
        | some m => bumpMonth acc m.val) acc).length = acc.length := by
  induction series generalizing acc with
  | nil => rfl
  | cons p rest ih =>
    cases hp : parseMonth p.peak_time with
    | none => simp [List.foldl_cons, hp, ih]
    | some m => simp [List.foldl_cons, hp, ih, bumpMonth_length]

theorem monthlyFrequency_foldl_months (parseMonth : String → Option (Fin 12))
    (series : List StationMatchedPoint) (acc : List MonthlyFrequencyPoint) :
    (series.foldl
      (fun acc item =>
        match parseMonth item.peak_time with
        | none => acc
        | some m => bumpMonth acc m.val) acc).map (·.month) = acc.map (·.month) := by
  induction series generalizing acc with
  | nil => rfl
  | cons p rest ih =>
    cases hp : parseMonth p.peak_time with
    | none => simp [List.foldl_cons, hp, ih]
    | some m => simp [List.foldl_cons, hp, ih, bumpMonth_map_month]

theorem monthlyFrequency_foldl_sum (parseMonth : String → Option (Fin 12))
    (series : List StationMatchedPoint) (acc : List MonthlyFrequencyPoint)
    (hlen : acc.length = 12) :
    ((series.foldl
      (fun acc item =>
        match parseMonth item.peak_time with
        | none => acc
        | some m => bumpMonth acc m.val) acc).map (·.count)).sum
      = ((acc.map (·.count)).sum)
          + (series.filter fun p => (parseMonth p.peak_time).isSome).length := by
  induction series generalizing acc with
  | nil => simp
  | cons p rest ih =>
    cases hp : parseMonth p.peak_time with
    | none =>
      simp [List.foldl_cons, hp, ih acc hlen, List.filter_cons]
    | some m =>
      have hm : m.val < acc.length := by
        rw [hlen]; exact m.isLt
      have hb : (bumpMonth acc m.val).length = 12 := by
        rw [bumpMonth_length, hlen]
      simp [List.foldl_cons, hp, ih _ hb, bumpMonth_sum acc m.val hm, List.filter_cons,
        Nat.add_comm, Nat.add_left_comm, Nat.add_assoc]

/-! ### String primitives for the search hooks -/

/-- Embedding of String.prototype.startsWith: the pattern is a list-level
initial segment of the receiver. -/
def jsStartsWith (s pat : String) : Bool :=
  decide (pat.data <+: s.data)

/-- Embedding of String.prototype.includes: the pattern occurs contiguously
somewhere in the receiver. -/
def jsIncludes (s pat : String) : Bool :=
  decide (pat.data <:+: s.data)

/-- Whitespace predicate used by the trim embedding. -/
def jsIsWs (c : Char) : Bool :=
  c == ' ' || c == '\t' || c == '\n' || c == '\r'

/-- Embedding of String.prototype.trim: strip leading and trailing
whitespace. -/
def jsTrim (s : String) : String :=
  ⟨((s.data.dropWhile jsIsWs).reverse.dropWhile jsIsWs).reverse⟩

/-- Code-unit comparison of characters. -/
def charLtB (a b : Char) : Bool :=
  decide (a.toNat < b.toNat)

/-- Lexicographic comparison of character lists. -/
def lexLt : List Char → List Char → Bool
  | [], [] => false
  | [], _ :: _ => true
  | _ :: _, [] => false
  | a :: as, b :: bs => if a = b then lexLt as bs else charLtB a b

/-- Embedding of the JS string comparison a < b (code-unit lexicographic). -/
def strLtB (a b : String) : Bool :=
  lexLt a.data b.data

/-- Embedding of the JS string comparison a <= b. -/
def strLeB (a b : String) : Bool :=
  !(strLtB b a)

/-- The ordering relation used for suggestion sorting. -/
def strLe (a b : String) : Prop :=
  strLeB a b = true

instance : DecidableRel strLe := fun a b =>
  inferInstanceAs (Decidable (strLeB a b = true))

/-- Ascending string sort, the embedding of
Array.prototype.sort((a, b) => a.localeCompare(b)) with the locale order
modelled by the lexicographic order on strings. -/
def sortStr (l : List String) : List String :=
  List.insertionSort strLe l

/-! ### Search index data (src/hooks/useStationSearch.ts) -/

/-- One entry of the basin search index. -/
structure BasinSearchIndexItem where
  name : String
  normalizedName : String
deriving DecidableEq

/-- One entry of the station search index: the station and its normalized
non-empty name variants. -/
structure StationSearchIndexItem where
  station : Station
  names : List String
deriving DecidableEq

/-- The two tab kinds of the side panel. -/
inductive TabKind where
  | basin
  | station
deriving DecidableEq

/-- ActiveTab from src/app/map/types: basin, station or null. -/
def ActiveTab := Option TabKind
deriving instance DecidableEq for ActiveTab

/-- Basin tab payload (src/app/map/types). -/
structure BasinTabData where
  basinName : String
  stationCount : Nat
deriving DecidableEq

/-- Suggestion origin tag (src/app/map/types, SearchSuggestion.type). -/
inductive SuggestionType where
  | Basin
  | Station
deriving DecidableEq

/-- An autocomplete suggestion (src/app/map/types). -/
structure SearchSuggestion where
  value : String
  type : SuggestionType
deriving DecidableEq

/-- The committed search selection label (src/app/map/types). -/
structure SelectedSearchItem where
  label : String
  type : SuggestionType
deriving DecidableEq

/-! ### Basin grouping and basin index (src/unnamed LeafletMap component) -/

/-- JS Map.prototype.set on an insertion-ordered association list: replace
the value of an existing key in place, else append the new binding. -/
def mapSet (m : List (String × List Station)) (k : String) (v : List Station) :
    List (String × List Station) :=
  match m with
  | [] => [(k, v)]
  | (k', v') :: rest => if k' = k then (k, v) :: rest else (k', v') :: mapSet rest k v

/-- JS Map.prototype.get with the ?? [] fallback of the call sites. -/
def mapGetD (m : List (String × List Station)) (k : String) : List Station :=
  (((m.find? fun kv => kv.1 == k).map fun kv => kv.2).getD [])

/-- basinGroups of the LeafletMap component: group stations by trimmed
non-empty basin name, in first-seen key order. -/
def basinGroups (stations : List Station) : List (String × List Station) :=
  stations.foldl
    (fun groups station =>
      match station.basin_name with
      | none => groups
      | some raw =>
        let name := jsTrim raw
        if name = "" then groups
        else mapSet groups name (mapGetD groups name ++ [station]))
    []

/-- basinSearchIndex of the LeafletMap component: one entry per distinct
basin name, carrying the display name and its normalized form.  The missing
mapUtils normalizeText is abstracted by the parameter norm. -/
def basinSearchIndex (norm : String → String) (stations : List Station) :
    List BasinSearchIndexItem :=
  (basinGroups stations).map fun g => ⟨g.1, norm g.1⟩

/-! ### Match resolver (src/hooks/useStationSearch.ts, performSearch) -/

/-- The staged basin lookup of performSearch: first entry whose normalized
name equals the normalized keyword, else first entry whose normalized name
starts with it, else first entry whose normalized name contains it; the JS
?? chain keeps the name of the first stage that found an entry. -/
def basinStagedMatch (idx : List BasinSearchIndexItem) (normalizedKeyword : String) :
    Option String :=
  match idx.find? fun e => e.normalizedName == normalizedKeyword with
  | some e => some e.name
  | none =>
    match idx.find? fun e => jsStartsWith e.normalizedName normalizedKeyword with
    | some e => some e.name
    | none =>
      (idx.find? fun e => jsIncludes e.normalizedName normalizedKeyword).map fun e => e.name

/-- The single-pass station test of performSearch: some name variant equals
or contains the normalized keyword. -/
def stationSingleTest (normalizedKeyword : String) (it : StationSearchIndexItem) : Bool :=
  it.names.any fun name => name == normalizedKeyword || jsIncludes name normalizedKeyword

/-- Result of the match resolver. -/
inductive ResolveResult where
  | basin (name : String)
  | station (st : Station)
  | noMatch
deriving DecidableEq

/-- The station fallback of performSearch: first index item passing the
single-pass test. -/
def stationSinglePass (sidx : List StationSearchIndexItem) (normalizedKeyword : String) :
    ResolveResult :=
  match sidx.find? (stationSingleTest normalizedKeyword) with
  | some it => .station it.station
  | none => .noMatch

/-- The pure resolution core of performSearch on an already-normalized
keyword: the staged basin lookup wins whenever it produced a truthy (non
empty) name, and only otherwise is the station index consulted. -/
def resolveKeyword (idx : List BasinSearchIndexItem) (sidx : List StationSearchIndexItem)
    (normalizedKeyword : String) : ResolveResult :=
  match basinStagedMatch idx normalizedKeyword with
  | some name => if name = "" then stationSinglePass sidx normalizedKeyword else .basin name
  | none => stationSinglePass sidx normalizedKeyword

/-! ### UI state and performSearch as a state transformer -/

/-- The pieces of component state that performSearch and the useMapState
handlers read or write. -/
structure UiState where
  mapReady : Bool
  searchHint : String
  selectedSearchItem : Option SelectedSearchItem
  previewStationId : Option String
  selectedStationId : Option String
  stationTab : Option Station
  basinTab : Option BasinTabData
  activeTab : ActiveTab
deriving DecidableEq

/-- The no-match hint constant of the LeafletMap component. -/
def noMatchHint : String := "No results matched. Try a more complete name."

/-- commitStationSelection of src/hooks/useMapState.ts. -/
def commitStationSelection (station : Station) (s : UiState) : UiState :=
  { s with
    selectedStationId := some station.station_id
    stationTab := some station
    previewStationId := none
    activeTab := some .station }

/-- performSearch of src/hooks/useStationSearch.ts as a state transformer;
returns the Boolean result together with the updated state.  norm stands for
the missing mapUtils normalizeText, getDisplayName for the missing mapUtils
stationDisplayName. -/
def performSearch (norm : String → String) (getDisplayName : Station → String)
    (bg : List (String × List Station)) (idx : List BasinSearchIndexItem)
    (sidx : List StationSearchIndexItem) (rawKeyword : String) (s : UiState) :
    Bool × UiState :=
  let keyword := jsTrim rawKeyword
  if keyword = "" then
    (false, { s with
      selectedSearchItem := none
      previewStationId := none
      searchHint := "Please enter a basin / station name." })
  else if !s.mapReady then
    (false, { s with
      selectedSearchItem := none
      previewStationId := none
      searchHint := "Map is not ready yet. Please try again shortly." })
  else
    match resolveKeyword idx sidx (norm keyword) with
    | .basin name =>
      let matched := mapGetD bg name
      (true, { s with
        searchHint := ""
        previewStationId := none
        selectedSearchItem := some ⟨name, .Basin⟩
        basinTab := some ⟨name, matched.length⟩
        activeTab := some .basin })
    | .station st =>
      let label := match st.station_name with
        | some n => if n = "" then getDisplayName st else n
        | none => getDisplayName st
      (true, commitStationSelection st
        { s with
          searchHint := ""
          selectedSearchItem := some ⟨label, .Station⟩ })
    | .noMatch =>
      (false, { s with
        selectedSearchItem := none
        previewStationId := none
        searchHint := noMatchHint })

/-! ### Close-tab handlers (src/hooks/useMapState.ts) -/

/-- handleCloseStationTab: clear the station tab and fall back to the basin
tab when one exists, else to no tab. -/
def handleCloseStationTab (s : UiState) : UiState :=
  { s with
    stationTab := none
    selectedStationId := none
    previewStationId := none
    activeTab := if s.basinTab.isSome then some .basin else none }

/-- handleCloseBasinTab: clear the basin tab; when the basin tab was active,
fall back to the station tab when one exists, else to no tab. -/
def handleCloseBasinTab (s : UiState) : UiState :=
  if s.activeTab = some .basin then
    match s.stationTab with
    | some st =>
      { s with
        basinTab := none
        previewStationId := none
        activeTab := some .station
        selectedStationId := some st.station_id }
    | none =>
      { s with
        basinTab := none
        previewStationId := none
        activeTab := none
        selectedStationId := none }
  else
    { s with basinTab := none, previewStationId := none }

/-! ### Suggestions (src/hooks/useStationSearch.ts) -/

/-- basinSuggestions: basin index entries whose normalized name starts with
the normalized keyword, mapped to display names, sorted ascending, first
eight. -/
def basinSuggestions (norm : String → String) (idx : List BasinSearchIndexItem)
    (searchText : String) : List String :=
  let keyword := norm searchText
  if keyword = "" then []
  else
    (sortStr ((idx.filter fun e => jsStartsWith e.normalizedName keyword).map
      fun e => e.name)).take 8

/-- stationNameSuggestions: trimmed non-empty primary station names whose
normalized form starts with the normalized keyword, deduplicated by raw name
in first-seen order (the JS Set), sorted ascending, first eight. -/
def stationNameSuggestions (norm : String → String) (stations : List Station)
    (searchText : String) : List String :=
  let keyword := norm searchText
  if keyword = "" then []
  else
    let unique := stations.foldl
      (fun acc station =>
        match station.station_name with
        | none => acc
        | some raw =>
          let name := jsTrim raw
          if name = "" then acc
          else if jsStartsWith (norm name) keyword then
            (if name ∈ acc then acc else acc ++ [name])
          else acc)
      []
    (sortStr unique).take 8

/-- searchSuggestions: basin suggestions before station suggestions, each
tagged with its type, concatenated without re-sorting. -/
def searchSuggestions (norm : String → String) (idx : List BasinSearchIndexItem)
    (stations : List Station) (searchText : String) : List SearchSuggestion :=
  (basinSuggestions norm idx searchText).map (fun value => ⟨value, .Basin⟩) ++
    (stationNameSuggestions norm stations searchText).map (fun value => ⟨value, .Station⟩)

/-! ### Per-tab date range state (src/hooks/useStationEvents.ts) -/

/-- A stored per-tab date range; the empty string models an unset field,
matching the fallback record with empty start and end used by the source. -/
structure DateRange where
  start : String
  «end» : String
deriving DecidableEq

/-- The slice of useStationEvents state that the date-range logic uses:
the per-tab record of stored ranges plus the summary-derived default
bounds. -/
structure EventsState where
  ranges : List (String × DateRange)
  minPeakDate : Option String
  maxPeakDate : Option String
deriving DecidableEq

/-- JS string truthiness of a nullable string. -/
def truthyS (o : Option String) : Bool :=
  match o with
  | some s => s ≠ ""
  | none => false

/-- Lookup of the stored range of a tab key (reading the JS record). -/
def getRange (m : List (String × DateRange)) (k : String) : Option DateRange :=
  (m.find? fun kv => kv.1 == k).map fun kv => kv.2

/-- Spread-update of the JS record: replace the binding of an existing key,
else append the new binding. -/
def upsertRange (m : List (String × DateRange)) (k : String) (v : DateRange) :
    List (String × DateRange) :=
  match m with
  | [] => [(k, v)]
  | (k', v') :: rest => if k' = k then (k, v) :: rest else (k', v') :: upsertRange rest k v

/-- rangeStartDate: stored start when set, else the summary minimum
(peakStartDate || minPeakDate). -/
def effStartDate (s : EventsState) (key : String) : Option String :=
  let peakStartDate := (((getRange s.ranges key).map fun r => r.start).getD "")
  if peakStartDate = "" then s.minPeakDate else some peakStartDate

/-- rangeEndDate: stored end when set, else the summary maximum
(peakEndDate || maxPeakDate). -/
def effEndDate (s : EventsState) (key : String) : Option String :=
  let peakEndDate := (((getRange s.ranges key).map fun r => r.«end»).getD "")
  if peakEndDate = "" then s.maxPeakDate else some peakEndDate

/-- setStartDate: store the new start under the active tab key, pulling the
stored end forward to the new start when the new start exceeds the truthy
effective end. -/
def setStartDate (key next : String) (s : EventsState) : EventsState :=
  let current := (getRange s.ranges key).getD ⟨"", ""⟩
  let nextEnd :=
    match effEndDate s key with
    | some e => if e ≠ "" ∧ strLtB e next = true then next else current.«end»
    | none => current.«end»
  { s with ranges := upsertRange s.ranges key ⟨next, nextEnd⟩ }

/-- setEndDate: store the new end under the active tab key, pulling the
stored start back to the new end when the new end is below the truthy
effective start. -/
def setEndDate (key next : String) (s : EventsState) : EventsState :=
  let current := (getRange s.ranges key).getD ⟨"", ""⟩
  let nextStart :=
    match effStartDate s key with
    | some a => if a ≠ "" ∧ strLtB next a = true then next else current.start
    | none => current.start
  { s with ranges := upsertRange s.ranges key ⟨nextStart, next⟩ }

/-- One user-visible event affecting the date-range state: a start edit, an
end edit, or the summary defaults (re)loading. -/
inductive DateOp where
  | setStart (key next : String)
  | setEnd (key next : String)
  | summaryLoaded (minD maxD : Option String)

/-- Apply one date-range event. -/
def applyDateOp (s : EventsState) : DateOp → EventsState
  | .setStart key next => setStartDate key next s
  | .setEnd key next => setEndDate key next s
  | .summaryLoaded minD maxD => { s with minPeakDate := minD, maxPeakDate := maxD }

/-- Apply a sequence of date-range events. -/
def applyDateOps (ops : List DateOp) (s : EventsState) : EventsState :=
  ops.foldl applyDateOp s

/-- The stored ranges are never inverted: whenever both components of a
stored per-tab range are set, the start is at most the end. -/
def RangesNotInverted (s : EventsState) : Prop :=
  ∀ kv ∈ s.ranges, kv.2.start ≠ "" → kv.2.«end» ≠ "" → strLeB kv.2.start kv.2.«end» = true

/-! ### Ranged request construction (src/hooks/useStationEvents.ts) -/

/-- Chart presets offered by the side panel. -/
inductive ChartPresetId where
  | timeline_all
  | seasonal_frequency
  | peak_distribution
deriving DecidableEq

/-- The inputs of the rangeRequestUrl computation. -/
structure RangeQueryState where
  eventsBasePath : Option String
  minPeakDate : Option String
  maxPeakDate : Option String
  peakStartDate : String
  peakEndDate : String
  selectedPreset : Option ChartPresetId
deriving DecidableEq

/-- rangeStartDate of the hook (peakStartDate || minPeakDate). -/
def rangeStartDate (s : RangeQueryState) : Option String :=
  if s.peakStartDate ≠ "" then some s.peakStartDate else s.minPeakDate

/-- rangeEndDate of the hook (peakEndDate || maxPeakDate). -/
def rangeEndDate (s : RangeQueryState) : Option String :=
  if s.peakEndDate ≠ "" then some s.peakEndDate else s.maxPeakDate

/-- hasDateFilterChanged: a truthy effective bound differs from the
corresponding truthy default bound. -/
def hasDateFilterChanged (s : RangeQueryState) : Bool :=
  (truthyS s.minPeakDate && truthyS (rangeStartDate s)
      && decide (rangeStartDate s ≠ s.minPeakDate))
    || (truthyS s.maxPeakDate && truthyS (rangeEndDate s)
      && decide (rangeEndDate s ≠ s.maxPeakDate))

/-- shouldFetchRangeData: a preset is active or the date filter changed. -/
def shouldFetchRangeData (s : RangeQueryState) : Bool :=
  s.selectedPreset.isSome || hasDateFilterChanged s

/-- rangeRequestUrl, with the URL kept structured as base path plus the
ordered URLSearchParams pairs. -/
def rangeRequestUrl (s : RangeQueryState) : Option (String × List (String × String)) :=
  if truthyS s.eventsBasePath && truthyS (rangeStartDate s) && truthyS (rangeEndDate s)
      && shouldFetchRangeData s then
    some (s.eventsBasePath.getD "",
      [("includeRecent", "0"),
       ("peakStart", (rangeStartDate s).getD ""),
       ("peakEnd", (rangeEndDate s).getD "")]
        ++ (if s.selectedPreset.isSome then [("includeMatchedSeries", "1")] else []))
  else
    none

/-- The ranged-fetch condition exactly as the claim words it: base path and
both effective bounds known, and either a preset is active or the effective
range differs from the default span pair. -/
def claimRangedFetchCond (s : RangeQueryState) : Prop :=
  truthyS s.eventsBasePath = true ∧ truthyS (rangeStartDate s) = true ∧
    truthyS (rangeEndDate s) = true ∧
    (s.selectedPreset.isSome = true ∨
      (rangeStartDate s, rangeEndDate s) ≠ (s.minPeakDate, s.maxPeakDate))

instance (s : RangeQueryState) : Decidable (claimRangedFetchCond s) := by
  unfold claimRangedFetchCond
  infer_instance

/-- The state of the C7 counterexample: summary defaults not yet known, a
stored range set by the user, no active preset. -/
def c7State : RangeQueryState :=
  ⟨some "/api/basins/Arakawa/events", none, none, "2021-01-01", "2021-06-01", none⟩

/-! ### Reference-level view of the distribution derivation -/

/-- A tiny array heap: references are indices into a list of arrays. -/
abbrev Heap := List (List StationMatchedPoint)

/-- Read an array reference. -/
def heapGet (h : Heap) (r : Nat) : List StationMatchedPoint :=
  h.getD r []

/-- Allocate a fresh array (what Array.prototype.filter does). -/
def heapAlloc (h : Heap) (v : List StationMatchedPoint) : Heap × Nat :=
  (h ++ [v], h.length)

/-- Overwrite an array in place (what Array.prototype.sort does). -/
def heapSet (h : Heap) (r : Nat) (v : List StationMatchedPoint) : Heap :=
  h.set r v

/-- The peakDistribution derivation at the reference level: filter allocates
a fresh array, sort mutates that fresh array in place, and the ranked points
are mapped off the sorted copy. -/
def peakDistributionProc (h : Heap) (r : Nat) : Heap × List PeakDistributionPoint :=
  let arr := heapGet h r
  let alloc := heapAlloc h (arr.filter fun item => item.peak_finite)
  let h1 := alloc.1
  let r1 := alloc.2
  let h2 := heapSet h1 r1 (sortByPeakDesc (heapGet h1 r1))
  (h2, ((heapGet h2 r1).enum).map fun ip => ⟨ip.1 + 1, ip.2.peak_value⟩)

/-- chartPoints aliases the matched series without copying. -/
def chartPoints (matchedSeries : List StationMatchedPoint) : List StationMatchedPoint :=
  matchedSeries

/-! ### Order theory for the embedded string comparison -/

theorem charLtB_irrefl (a : Char) : charLtB a a = false := by
  simp [charLtB]

theorem charLtB_asymm {a b : Char} (h : charLtB a b = true) : charLtB b a = false := by
  simp only [charLtB, Char.toNat, decide_eq_true_eq] at h
  simp only [charLtB, Char.toNat, decide_eq_false_iff_not]
  omega

theorem charLtB_trans {a b c : Char} (hab : charLtB a b = true) (hbc : charLtB b c = true) :
    charLtB a c = true := by
  simp only [charLtB, Char.toNat, decide_eq_true_eq] at hab hbc ⊢
  omega

theorem charLtB_conn {a b : Char} (hab : charLtB a b = false) (hba : charLtB b a = false) :
    a = b := by
  simp only [charLtB, Char.toNat, decide_eq_false_iff_not] at hab hba
  apply Char.ext
  apply UInt32.toNat.inj
  omega

theorem lexLt_irrefl (l : List Char) : lexLt l l = false := by
  induction l with
  | nil => rfl
  | cons a as ih => simp [lexLt, ih]

theorem lexLt_trans : ∀ {a b c : List Char},
    lexLt a b = true → lexLt b c = true → lexLt a c = true
  | [], [], _, hab, _ => by simp [lexLt] at hab
  | [], _ :: _, [], _, hbc => by simp [lexLt] at hbc
  | [], _ :: _, _ :: _, _, _ => by simp [lexLt]
  | _ :: _, [], _, hab, _ => by simp [lexLt] at hab
  | _ :: _, _ :: _, [], _, hbc => by simp [lexLt] at hbc
  | x :: xs, y :: ys, z :: zs, hab, hbc => by
    simp only [lexLt] at hab hbc ⊢
    by_cases hxy : x = y
    · subst hxy
      rw [if_pos rfl] at hab
      by_cases hyz : x = z
      · subst hyz
        rw [if_pos rfl] at hbc ⊢
        exact lexLt_trans hab hbc
      · rw [if_neg hyz] at hbc ⊢
        exact hbc
    · rw [if_neg hxy] at hab
      by_cases hyz : y = z
      · subst hyz
        rw [if_neg hxy]
        exact hab
      · rw [if_neg hyz] at hbc
        have hxz : charLtB x z = true := charLtB_trans hab hbc
        by_cases h : x = z
        · subst h
          have := charLtB_asymm hab
          rw [this] at hbc
          exact absurd hbc (by simp)
        · rw [if_neg h]
          exact hxz

theorem lexLt_conn : ∀ {a b : List Char},
    lexLt a b = false → lexLt b a = false → a = b
  | [], [], _, _ => rfl
  | [], _ :: _, hab, _ => by simp [lexLt] at hab
  | _ :: _, [], _, hba => by simp [lexLt] at hba
  | x :: xs, y :: ys, hab, hba => by
    simp only [lexLt] at hab hba
    by_cases hxy : x = y
    · subst hxy
      rw [if_pos rfl] at hab hba
      rw [lexLt_conn hab hba]
    · rw [if_neg hxy] at hab
      rw [if_neg (fun h => hxy h.symm)] at hba
      exact absurd (charLtB_conn hab hba) hxy

theorem strLeB_refl (a : String) : strLeB a a = true := by
  simp [strLeB, strLtB, lexLt_irrefl]

theorem strLeB_of_strLtB_eq_false {a b : String} (h : strLtB a b = false) :
    strLeB b a = true := by
  simp [strLeB, h]

instance : IsTotal String strLe := by
  constructor
  intro a b
  by_cases h : strLtB b a = true
  · right
    have hba : lexLt b.data a.data = true := h
    have : lexLt a.data b.data = false := by
      by_cases h2 : lexLt a.data b.data = true
      · have := lexLt_trans h2 hba
        rw [lexLt_irrefl] at this
        exact absurd this (by simp)
      · exact Bool.eq_false_iff.mpr h2
    simp [strLe, strLeB, strLtB, this]
  · left
    simp only [strLe, strLeB]
    simp [Bool.eq_false_iff.mpr h]

instance : IsTrans String strLe := by
  constructor
  intro a b c hab hbc
  simp only [strLe, strLeB, Bool.not_eq_true'] at hab hbc ⊢
  by_cases h : lexLt c.data a.data = true
  · by_cases h2 : lexLt c.data b.data = true
    · rw [show strLtB c b = lexLt c.data b.data from rfl, h2] at hbc
      exact absurd hbc (by simp)
    · have hcb : lexLt c.data b.data = false := Bool.eq_false_iff.mpr h2
      by_cases h3 : lexLt b.data c.data = true
      · have := lexLt_trans h3 h
        rw [show strLtB b a = lexLt b.data a.data from rfl, this] at hab
        exact absurd hab (by simp)
      · have hbc2 : lexLt b.data c.data = false := Bool.eq_false_iff.mpr h3
        have : b.data = c.data := lexLt_conn hbc2 hcb
        have hba : lexLt b.data a.data = true := by rw [this]; exact h
        rw [show strLtB b a = lexLt b.data a.data from rfl, hba] at hab
        exact absurd hab (by simp)
  · exact Bool.eq_false_iff.mpr h

theorem filter_val_orderedInsert (v : ℚ) (x : StationMatchedPoint)
    (t : List StationMatchedPoint) :
    (List.orderedInsert peakGE x t).filter (fun p => p.peak_value == v)
      = if x.peak_value == v
          then x :: t.filter (fun p => p.peak_value == v)
          else t.filter (fun p => p.peak_value == v) := by
  induction t with
  | nil =>
    by_cases hx : x.peak_value = v <;> simp [List.orderedInsert, hx]
  | cons y ys ih =>
    by_cases hr : peakGE x y
    · by_cases hx : x.peak_value = v <;>
        simp [List.orderedInsert, hr, hx]
    · have hlt : x.peak_value < y.peak_value := lt_of_not_le hr
      by_cases hx : x.peak_value = v
      · have hy : ¬ y.peak_value = v := by
          intro hyv
          rw [hx] at hlt
          rw [hyv] at hlt
          exact lt_irrefl v hlt
        simp [List.orderedInsert, hr, hx, hy, ih]
      · by_cases hy : y.peak_value = v <;>
          simp [List.orderedInsert, hr, hx, hy, ih]

theorem filter_val_sortByPeakDesc (v : ℚ) (l : List StationMatchedPoint) :
    (sortByPeakDesc l).filter (fun p => p.peak_value == v)
      = l.filter (fun p => p.peak_value == v) := by
  induction l with
  | nil => rfl
  | cons x xs ih =>
    show (List.orderedInsert peakGE x (sortByPeakDesc xs)).filter _ = _
    rw [filter_val_orderedInsert]
    by_cases hx : x.peak_value = v <;> simp [hx, ih]

theorem peakDistribution_map_rank (series : List StationMatchedPoint) :
    (peakDistribution series).map (·.rank)
      = (List.range (series.filter fun item => item.peak_finite).length).map (· + 1) := by
  unfold peakDistribution
  rw [List.map_map]
  have h1 : ((fun p : PeakDistributionPoint => p.rank) ∘
      fun ip : Nat × StationMatchedPoint => (⟨ip.1 + 1, ip.2.peak_value⟩ : PeakDistributionPoint))
      = (fun i => i + 1) ∘ Prod.fst := rfl
  rw [h1, ← List.map_map, List.enum_eq_enumFrom, List.enumFrom_map_fst,
    ← List.range_eq_range']
  have h2 : (sortByPeakDesc (series.filter fun item => item.peak_finite)).length
      = (series.filter fun item => item.peak_finite).length :=
    List.length_insertionSort _ _
  rw [h2]

theorem peakDistribution_map_value (series : List StationMatchedPoint) :
    (peakDistribution series).map (·.peak_value)
      = (sortByPeakDesc (series.filter fun item => item.peak_finite)).map (·.peak_value) := by
  unfold peakDistribution
  rw [List.map_map]
  have h1 : ((fun p : PeakDistributionPoint => p.peak_value) ∘
      fun ip : Nat × StationMatchedPoint => (⟨ip.1 + 1, ip.2.peak_value⟩ : PeakDistributionPoint))
      = (fun p : StationMatchedPoint => p.peak_value) ∘ Prod.snd := rfl
  rw [h1, ← List.map_map, List.enum_eq_enumFrom, List.enumFrom_map_snd]

/-- C4: peakDistribution drops points whose peak value is not finite,
stably sorts the remainder in descending order of peak value (ties keep
input order), and ranks 1..N by sorted position; the empty series gives the
empty list and the spec example with peaks 3, 7, 7, 1 gives ranks
(1,7),(2,7),(3,3),(4,1) with the two sevens in input order. -/
theorem c4_peakDistribution_stable_ranked (series : List StationMatchedPoint) :
    (peakDistribution series).map (·.rank)
        = (List.range (series.filter fun item => item.peak_finite).length).map (· + 1) ∧
    List.Pairwise (fun a b : PeakDistributionPoint => b.peak_value ≤ a.peak_value)
        (peakDistribution series) ∧
    (sortByPeakDesc (series.filter fun item => item.peak_finite)).Perm
        (series.filter fun item => item.peak_finite) ∧
    (∀ v : ℚ,
      (sortByPeakDesc (series.filter fun item => item.peak_finite)).filter
          (fun p => p.peak_value == v)
        = (series.filter fun item => item.peak_finite).filter
            (fun p => p.peak_value == v)) ∧
    peakDistribution [] = [] ∧
    peakDistribution examplePeakSeries
        = [⟨1, 7⟩, ⟨2, 7⟩, ⟨3, 3⟩, ⟨4, 1⟩] ∧
    (sortByPeakDesc examplePeakSeries).map (·.id) = [2, 3, 1, 4] := by
  refine ⟨peakDistribution_map_rank series, ?_, ?_, ?_, ?_, ?_, ?_⟩
  · have hs : List.Pairwise peakGE (sortByPeakDesc (series.filter fun item => item.peak_finite)) :=
      List.sorted_insertionSort peakGE _
    have h2 : (sortByPeakDesc (series.filter fun item => item.peak_finite)).enum.Pairwise
        (fun a b : Nat × StationMatchedPoint => peakGE a.2 b.2) := by
      refine List.pairwise_map.mp ?_
      rw [List.enum_eq_enumFrom, List.enumFrom_map_snd]
      exact hs
    exact List.pairwise_map.mpr h2
  · exact List.perm_insertionSort peakGE _
  · exact fun v => filter_val_sortByPeakDesc v _
  · rfl
  · decide
  · decide

/-- C3: the monthly-frequency projection always has exactly twelve buckets
labelled 1..12 in order, the counts are natural numbers summing to the
number of series points whose peak timestamp parses, and the empty series
gives the twelve zero buckets rather than an error. -/
theorem c3_monthlyFrequency_complete (parseMonth : String → Option (Fin 12))
    (series : List StationMatchedPoint) :
    (monthlyFrequency parseMonth series).length = 12 ∧
    (monthlyFrequency parseMonth series).map (·.month) = (List.range 12).map (· + 1) ∧
    ((monthlyFrequency parseMonth series).map (·.count)).sum
      = (series.filter fun p => (parseMonth p.peak_time).isSome).length ∧
    monthlyFrequency parseMonth [] = initMonthCounts ∧
    (∀ e ∈ initMonthCounts, e.count = 0) ∧
    (∀ e ∈ monthlyFrequency parseMonth series, 0 ≤ e.count) := by
  have hinit_len : initMonthCounts.length = 12 := by decide
  refine ⟨?_, ?_, ?_, rfl, ?_, ?_⟩
  · rw [monthlyFrequency, monthlyFrequency_foldl_length, hinit_len]
  · rw [monthlyFrequency, monthlyFrequency_foldl_months]
    decide
  · rw [monthlyFrequency, monthlyFrequency_foldl_sum parseMonth series initMonthCounts hinit_len]
    have : ((initMonthCounts.map (·.count)).sum) = 0 := by decide
    rw [this, Nat.zero_add]
  · decide
  · intro e _
    exact Nat.zero_le _

/-- C9: closing the station tab clears it and activates the basin tab when
one exists, else no tab; closing the basin tab clears it and, only when the
basin tab was active, activates the station tab when one exists, else no
tab, leaving the active tab alone otherwise. -/
theorem c9_close_tab_fallback (s : UiState) :
    (handleCloseStationTab s).stationTab = none ∧
    (handleCloseStationTab s).basinTab = s.basinTab ∧
    (handleCloseStationTab s).activeTab
      = (if s.basinTab.isSome then some TabKind.basin else none) ∧
    (handleCloseBasinTab s).basinTab = none ∧
    (handleCloseBasinTab s).stationTab = s.stationTab ∧
    (s.activeTab = some TabKind.basin →
      (handleCloseBasinTab s).activeTab
        = (if s.stationTab.isSome then some TabKind.station else none)) ∧
    (s.activeTab ≠ some TabKind.basin → (handleCloseBasinTab s).activeTab = s.activeTab) := by
  refine ⟨rfl, rfl, rfl, ?_, ?_, ?_, ?_⟩
  · by_cases h : s.activeTab = some TabKind.basin
    · cases hst : s.stationTab <;> simp [handleCloseBasinTab, h, hst]
    · simp [handleCloseBasinTab, h]
  · by_cases h : s.activeTab = some TabKind.basin
    · cases hst : s.stationTab <;> simp [handleCloseBasinTab, h, hst]
    · simp [handleCloseBasinTab, h]
  · intro h
    cases hst : s.stationTab <;> simp [handleCloseBasinTab, h, hst]
  · intro h
    simp [handleCloseBasinTab, h]

/-- C9 witness: a state with both tabs open and the basin tab active. -/
theorem c9_close_tab_fallback_witness :
    (handleCloseBasinTab
      ⟨true, "", none, none, none,
        some ⟨"S1", none, none, none, none, none, none, none, none, 1⟩,
        some ⟨"Arakawa", 3⟩, some TabKind.basin⟩).activeTab = some TabKind.station := by
  have h := c9_close_tab_fallback
    ⟨true, "", none, none, none,
      some ⟨"S1", none, none, none, none, none, none, none, none, 1⟩,
      some ⟨"Arakawa", 3⟩, some TabKind.basin⟩
  rw [h.2.2.2.2.2.1 rfl]
  rfl

/-- C10: deriving the peak distribution leaves the matched series untouched:
the filter allocates a fresh array, the in-place sort hits only that fresh
array, the derived list agrees with the pure projection, and chartPoints is
the series itself. -/
theorem c10_peakDistribution_no_mutation (h : Heap) (r : Nat) (hr : r < h.length) :
    heapGet (peakDistributionProc h r).1 r = heapGet h r ∧
    (peakDistributionProc h r).2 = peakDistribution (heapGet h r) ∧
    chartPoints (heapGet h r) = heapGet h r := by
  have hne : h.length ≠ r := Nat.ne_of_gt hr
  refine ⟨?_, ?_, rfl⟩
  · simp only [peakDistributionProc, heapAlloc, heapGet, heapSet,
      List.getD_eq_getElem?_getD, List.getElem?_set_ne hne, List.getElem?_append_left hr]
  · simp only [peakDistributionProc, heapAlloc, heapGet, heapSet,
      List.getD_eq_getElem?_getD, List.getElem?_concat_length, Option.getD_some]
    rw [List.getElem?_set_self (by simp)]
    simp [peakDistribution, sortByPeakDesc]

/-- C10 witness: a one-array heap. -/
theorem c10_peakDistribution_no_mutation_witness :
    heapGet (peakDistributionProc [examplePeakSeries] 0).1 0 = examplePeakSeries := by
  have h := c10_peakDistribution_no_mutation [examplePeakSeries] 0 (by decide)
  rw [h.1]
  rfl

/-! ### Helper lemmas for the date-range state -/

theorem mem_upsertRange {m : List (String × DateRange)} {k : String} {v : DateRange}
    {kv : String × DateRange} (h : kv ∈ upsertRange m k v) : kv = (k, v) ∨ kv ∈ m := by
  induction m with
  | nil =>
    simp [upsertRange] at h
    exact Or.inl h
  | cons hd tl ih =>
    rw [show upsertRange (hd :: tl) k v
        = if hd.1 = k then (k, v) :: tl else hd :: upsertRange tl k v from rfl] at h
    by_cases hk : hd.1 = k
    · rw [if_pos hk] at h
      rcases List.mem_cons.mp h with h1 | h1
      · exact Or.inl h1
      · exact Or.inr (List.mem_cons_of_mem _ h1)
    · rw [if_neg hk] at h
      rcases List.mem_cons.mp h with h1 | h1
      · exact Or.inr (h1 ▸ List.mem_cons_self _ _)
      · rcases ih h1 with h2 | h2
        · exact Or.inl h2
        · exact Or.inr (List.mem_cons_of_mem _ h2)

theorem getRange_upsertRange (m : List (String × DateRange)) (k : String) (v : DateRange) :
    getRange (upsertRange m k v) k = some v := by
  induction m with
  | nil => simp [upsertRange, getRange]
  | cons hd tl ih =>
    rw [show upsertRange (hd :: tl) k v
        = if hd.1 = k then (k, v) :: tl else hd :: upsertRange tl k v from rfl]
    by_cases hk : hd.1 = k
    · rw [if_pos hk]
      simp [getRange]
    · rw [if_neg hk]
      simp only [getRange, List.find?_cons]
      rw [show (hd.1 == k) = false by simpa using hk]
      exact ih

theorem effEndDate_of_stored (s : EventsState) (key : String)
    (h : (((getRange s.ranges key).getD ⟨"", ""⟩).«end») ≠ "") :
    effEndDate s key = some (((getRange s.ranges key).getD ⟨"", ""⟩).«end») := by
  unfold effEndDate
  cases hg : getRange s.ranges key with
  | none => rw [hg] at h; simp at h
  | some r =>
    rw [hg] at h
    simp only [hg, Option.map_some', Option.getD_some]
    rw [if_neg (by simpa using h)]

theorem effStartDate_of_stored (s : EventsState) (key : String)
    (h : (((getRange s.ranges key).getD ⟨"", ""⟩).start) ≠ "") :
    effStartDate s key = some (((getRange s.ranges key).getD ⟨"", ""⟩).start) := by
  unfold effStartDate
  cases hg : getRange s.ranges key with
  | none => rw [hg] at h; simp at h
  | some r =>
    rw [hg] at h
    simp only [hg, Option.map_some', Option.getD_some]
    rw [if_neg (by simpa using h)]

theorem setStartDate_preserves (key next : String) (s : EventsState)
    (hInv : RangesNotInverted s) : RangesNotInverted (setStartDate key next s) := by
  intro kv hkv h1 h2
  simp only [setStartDate] at hkv
  rcases mem_upsertRange hkv with heq | hmem
  · subst heq
    simp only at h1 h2 ⊢
    cases heff : effEndDate s key with
    | none =>
      rw [heff] at h2
      have h2n : (((getRange s.ranges key).getD ⟨"", ""⟩).«end») ≠ "" := h2
      exact absurd (effEndDate_of_stored s key h2n) (by simp [heff])
    | some e =>
      rw [heff] at h2
      have h2s : (if e ≠ "" ∧ strLtB e next = true then next
          else (((getRange s.ranges key).getD ⟨"", ""⟩).«end»)) ≠ "" := h2
      show strLeB next (if e ≠ "" ∧ strLtB e next = true then next
          else (((getRange s.ranges key).getD ⟨"", ""⟩).«end»)) = true
      by_cases hc : e ≠ "" ∧ strLtB e next = true
      · rw [if_pos hc]
        exact strLeB_refl next
      · rw [if_neg hc] at h2s ⊢
        have hes : effEndDate s key
            = some (((getRange s.ranges key).getD ⟨"", ""⟩).«end») :=
          effEndDate_of_stored s key h2s
        rw [heff] at hes
        have he : e = ((getRange s.ranges key).getD ⟨"", ""⟩).«end» :=
          Option.some_injective _ hes
        have hlt : strLtB e next = false := by
          by_cases hl : strLtB e next = true
          · exact absurd ⟨he ▸ h2s, hl⟩ hc
          · exact Bool.eq_false_iff.mpr hl
        rw [← he]
        exact strLeB_of_strLtB_eq_false hlt
  · exact hInv kv hmem h1 h2

theorem setEndDate_preserves (key next : String) (s : EventsState)
    (hInv : RangesNotInverted s) : RangesNotInverted (setEndDate key next s) := by
  intro kv hkv h1 h2
  simp only [setEndDate] at hkv
  rcases mem_upsertRange hkv with heq | hmem
  · subst heq
    simp only at h1 h2 ⊢
    cases heff : effStartDate s key with
    | none =>
      rw [heff] at h1
      have h1n : (((getRange s.ranges key).getD ⟨"", ""⟩).start) ≠ "" := h1
      exact absurd (effStartDate_of_stored s key h1n) (by simp [heff])
    | some a =>
      rw [heff] at h1
      have h1s : (if a ≠ "" ∧ strLtB next a = true then next
          else (((getRange s.ranges key).getD ⟨"", ""⟩).start)) ≠ "" := h1
      show strLeB (if a ≠ "" ∧ strLtB next a = true then next
          else (((getRange s.ranges key).getD ⟨"", ""⟩).start)) next = true
      by_cases hc : a ≠ "" ∧ strLtB next a = true
      · rw [if_pos hc]
        exact strLeB_refl next
      · rw [if_neg hc] at h1s ⊢
        have has : effStartDate s key
            = some (((getRange s.ranges key).getD ⟨"", ""⟩).start) :=
          effStartDate_of_stored s key h1s
        rw [heff] at has
        have ha : a = ((getRange s.ranges key).getD ⟨"", ""⟩).start :=
          Option.some_injective _ has
        have hlt : strLtB next a = false := by
          by_cases hl : strLtB next a = true
          · exact absurd ⟨ha ▸ h1s, hl⟩ hc
          · exact Bool.eq_false_iff.mpr hl
        rw [← ha]
        exact strLeB_of_strLtB_eq_false hlt
  · exact hInv kv hmem h1 h2

theorem applyDateOps_preserves (ops : List DateOp) (s : EventsState)
    (hInv : RangesNotInverted s) : RangesNotInverted (applyDateOps ops s) := by
  induction ops generalizing s with
  | nil => exact hInv
  | cons op rest ih =>
    cases op with
    | setStart key next =>
      exact ih _ (setStartDate_preserves key next s hInv)
    | setEnd key next =>
      exact ih _ (setEndDate_preserves key next s hInv)
    | summaryLoaded minD maxD =>
      exact ih _ (fun kv hkv => hInv kv hkv)

/-- C5: a start edit beyond the truthy effective end stores the new start as
both endpoints, an end edit below the truthy effective start stores the new
end as both endpoints, and every sequence of date edits and summary loads
keeps every stored per-tab range non-inverted. -/
theorem c5_range_never_inverted (s : EventsState) (key next : String) (ops : List DateOp)
    (hInv : RangesNotInverted s) :
    RangesNotInverted (setStartDate key next s) ∧
    RangesNotInverted (setEndDate key next s) ∧
    (∀ e, effEndDate s key = some e → e ≠ "" → strLtB e next = true →
      getRange (setStartDate key next s).ranges key = some ⟨next, next⟩) ∧
    (∀ a, effStartDate s key = some a → a ≠ "" → strLtB next a = true →
      getRange (setEndDate key next s).ranges key = some ⟨next, next⟩) ∧
    RangesNotInverted (applyDateOps ops s) := by
  refine ⟨setStartDate_preserves key next s hInv, setEndDate_preserves key next s hInv,
    ?_, ?_, applyDateOps_preserves ops s hInv⟩
  · intro e he hne hlt
    simp only [setStartDate, he, if_pos (And.intro hne hlt)]
    exact getRange_upsertRange s.ranges key ⟨next, next⟩
  · intro a ha hne hlt
    simp only [setEndDate, ha, if_pos (And.intro hne hlt)]
    exact getRange_upsertRange s.ranges key ⟨next, next⟩

/-- C5 witness: pushing the start past the stored end of an existing tab
range clamps the end to the new start. -/
theorem c5_range_never_inverted_witness :
    getRange (setStartDate "s:1" "2020-09-01"
      ⟨[("s:1", ⟨"2020-01-01", "2020-06-01"⟩)], none, none⟩).ranges "s:1"
      = some ⟨"2020-09-01", "2020-09-01"⟩ := by
  have h := c5_range_never_inverted
    ⟨[("s:1", ⟨"2020-01-01", "2020-06-01"⟩)], none, none⟩ "s:1" "2020-09-01" []
    (by intro kv hkv h1 h2; fin_cases hkv; decide)
  exact h.2.2.1 "2020-06-01" (by decide) (by decide) (by decide)

/-! ### Helper lemmas for the ranged request -/

theorem truthyS_iff (o : Option String) :
    truthyS o = true ↔ ∃ x, o = some x ∧ x ≠ "" := by
  cases o <;> simp [truthyS]

theorem hasDateFilterChanged_iff (s : RangeQueryState) :
    hasDateFilterChanged s = true ↔
      ((∃ m, s.minPeakDate = some m ∧ m ≠ "" ∧ truthyS (rangeStartDate s) = true ∧
          rangeStartDate s ≠ some m)
        ∨ (∃ M, s.maxPeakDate = some M ∧ M ≠ "" ∧ truthyS (rangeEndDate s) = true ∧
          rangeEndDate s ≠ some M)) := by
  unfold hasDateFilterChanged
  rw [Bool.or_eq_true]
  constructor
  · rintro (h | h)
    · rw [Bool.and_eq_true, Bool.and_eq_true] at h
      obtain ⟨⟨hA, hB⟩, hC⟩ := h
      obtain ⟨m, hm, hmne⟩ := (truthyS_iff _).mp hA
      refine Or.inl ⟨m, hm, hmne, hB, ?_⟩
      have hne := of_decide_eq_true hC
      rw [hm] at hne
      exact hne
    · rw [Bool.and_eq_true, Bool.and_eq_true] at h
      obtain ⟨⟨hA, hB⟩, hC⟩ := h
      obtain ⟨M, hM, hMne⟩ := (truthyS_iff _).mp hA
      refine Or.inr ⟨M, hM, hMne, hB, ?_⟩
      have hne := of_decide_eq_true hC
      rw [hM] at hne
      exact hne
  · rintro (⟨m, hm, hmne, hB, hne⟩ | ⟨M, hM, hMne, hB, hne⟩)
    · refine Or.inl ?_
      rw [Bool.and_eq_true, Bool.and_eq_true]
      refine ⟨⟨(truthyS_iff _).mpr ⟨m, hm, hmne⟩, hB⟩, ?_⟩
      apply decide_eq_true
      rw [hm]
      exact hne
    · refine Or.inr ?_
      rw [Bool.and_eq_true, Bool.and_eq_true]
      refine ⟨⟨(truthyS_iff _).mpr ⟨M, hM, hMne⟩, hB⟩, ?_⟩
      apply decide_eq_true
      rw [hM]
      exact hne

/-- C7 counterexample: with the summary defaults still unknown but a
user-stored range present and no preset, the code issues no ranged request
although the claim condition (base path and both effective bounds known, and
the effective range differing from the default span) holds. -/
theorem c7_counterexample :
    rangeRequestUrl c7State = none ∧ claimRangedFetchCond c7State ∧
      ¬(((rangeRequestUrl c7State).isSome = true) ↔ claimRangedFetchCond c7State) := by
  refine ⟨by decide, by decide, ?_⟩
  intro hiff
  have := hiff.mpr (by decide)
  rw [show rangeRequestUrl c7State = none from by decide] at this
  exact absurd this (by simp)

/-- C7 amended: the ranged request URL is non-null exactly when the base
path and both effective bounds are truthy and either a preset is active or a
side of the effective range differs from that side's known default bound;
and the request carries includeMatchedSeries=1 exactly when a preset is
active. -/
theorem c7_ranged_fetch_iff (s : RangeQueryState) :
    ((rangeRequestUrl s).isSome = true ↔
      (truthyS s.eventsBasePath = true ∧ truthyS (rangeStartDate s) = true ∧
        truthyS (rangeEndDate s) = true ∧
        (s.selectedPreset.isSome = true
          ∨ (∃ m, s.minPeakDate = some m ∧ m ≠ "" ∧ rangeStartDate s ≠ some m)
          ∨ (∃ M, s.maxPeakDate = some M ∧ M ≠ "" ∧ rangeEndDate s ≠ some M)))) ∧
    (∀ base q, rangeRequestUrl s = some (base, q) →
      (("includeMatchedSeries", "1") ∈ q ↔ s.selectedPreset.isSome = true)) := by
  constructor
  · unfold rangeRequestUrl
    by_cases hc : (truthyS s.eventsBasePath && truthyS (rangeStartDate s)
        && truthyS (rangeEndDate s) && shouldFetchRangeData s) = true
    · rw [if_pos hc]
      simp only [Option.isSome_some, true_iff]
      rw [Bool.and_eq_true, Bool.and_eq_true, Bool.and_eq_true] at hc
      obtain ⟨⟨⟨hb, hrs⟩, hre⟩, hf⟩ := hc
      refine ⟨hb, hrs, hre, ?_⟩
      unfold shouldFetchRangeData at hf
      rw [Bool.or_eq_true] at hf
      rcases hf with hf | hf
      · exact Or.inl hf
      · rcases (hasDateFilterChanged_iff s).mp hf with ⟨m, h1, h2, _, h4⟩ | ⟨M, h1, h2, _, h4⟩
        · exact Or.inr (Or.inl ⟨m, h1, h2, h4⟩)
        · exact Or.inr (Or.inr ⟨M, h1, h2, h4⟩)
    · rw [if_neg hc]
      simp only [Option.isSome_none, Bool.false_eq_true, false_iff]
      rintro ⟨hb, hrs, hre, hrest⟩
      apply hc
      rw [Bool.and_eq_true, Bool.and_eq_true, Bool.and_eq_true]
      refine ⟨⟨⟨hb, hrs⟩, hre⟩, ?_⟩
      unfold shouldFetchRangeData
      rw [Bool.or_eq_true]
      rcases hrest with hp | ⟨m, h1, h2, h4⟩ | ⟨M, h1, h2, h4⟩
      · exact Or.inl hp
      · exact Or.inr ((hasDateFilterChanged_iff s).mpr (Or.inl ⟨m, h1, h2, hrs, h4⟩))
      · exact Or.inr ((hasDateFilterChanged_iff s).mpr (Or.inr ⟨M, h1, h2, hre, h4⟩))
  · intro base q hq
    unfold rangeRequestUrl at hq
    by_cases hc : (truthyS s.eventsBasePath && truthyS (rangeStartDate s)
        && truthyS (rangeEndDate s) && shouldFetchRangeData s) = true
    · rw [if_pos hc] at hq
      have hpair := Option.some_injective _ hq
      have hq2 : q = [("includeRecent", "0"),
          ("peakStart", (rangeStartDate s).getD ""),
          ("peakEnd", (rangeEndDate s).getD "")]
            ++ (if s.selectedPreset.isSome then [("includeMatchedSeries", "1")] else []) :=
        (congrArg Prod.snd hpair).symm
      have k1 : ("includeMatchedSeries" : String) ≠ "includeRecent" := by decide
      have k2 : ("includeMatchedSeries" : String) ≠ "peakStart" := by decide
      have k3 : ("includeMatchedSeries" : String) ≠ "peakEnd" := by decide
      by_cases hp : s.selectedPreset.isSome = true
      · rw [hq2]
        simp [hp, Prod.ext_iff, k1, k2, k3]
      · rw [hq2]
        have hp2 : s.selectedPreset.isSome = false := Bool.eq_false_iff.mpr hp
        simp [hp2, Prod.ext_iff, k1, k2, k3]
    · rw [if_neg hc] at hq
      exact absurd hq (by simp)

/-- C7 witness for the amended claim: with both defaults known, an active
preset and the default full span, a ranged request is issued. -/
theorem c7_ranged_fetch_iff_witness :
    (rangeRequestUrl ⟨some "/api/stations/S1/events", some "2020-01-01", some "2020-12-31",
        "", "", some ChartPresetId.timeline_all⟩).isSome = true := by
  have h := c7_ranged_fetch_iff ⟨some "/api/stations/S1/events", some "2020-01-01",
    some "2020-12-31", "", "", some ChartPresetId.timeline_all⟩
  exact h.1.mpr (by refine ⟨by decide, by decide, by decide, Or.inl (by decide)⟩)

/-! ### Helper lemmas for the match resolver -/

theorem jsIncludes_self (s : String) : jsIncludes s s = true :=
  decide_eq_true (List.infix_refl _)

theorem jsIncludes_of_beq {s k : String} (h : (s == k) = true) : jsIncludes s k = true := by
  have hs : s = k := by simpa using h
  subst hs
  exact jsIncludes_self s

theorem jsIncludes_of_jsStartsWith {s k : String} (h : jsStartsWith s k = true) :
    jsIncludes s k = true := by
  have hp : k.data <+: s.data := of_decide_eq_true h
  obtain ⟨t, ht⟩ := hp
  exact decide_eq_true ⟨[], t, by simpa using ht⟩

theorem mem_mapSet {m : List (String × List Station)} {k : String} {v : List Station}
    {g : String × List Station} (h : g ∈ mapSet m k v) : g = (k, v) ∨ g ∈ m := by
  induction m with
  | nil =>
    simp [mapSet] at h
    exact Or.inl h
  | cons hd tl ih =>
    rw [show mapSet (hd :: tl) k v
        = if hd.1 = k then (k, v) :: tl else hd :: mapSet tl k v from rfl] at h
    by_cases hk : hd.1 = k
    · rw [if_pos hk] at h
      rcases List.mem_cons.mp h with h1 | h1
      · exact Or.inl h1
      · exact Or.inr (List.mem_cons_of_mem _ h1)
    · rw [if_neg hk] at h
      rcases List.mem_cons.mp h with h1 | h1
      · exact Or.inr (h1 ▸ List.mem_cons_self _ _)
      · rcases ih h1 with h2 | h2
        · exact Or.inl h2
        · exact Or.inr (List.mem_cons_of_mem _ h2)

theorem basinGroups_keys_ne_empty (stations : List Station) :
    ∀ g ∈ basinGroups stations, g.1 ≠ "" := by
  suffices h : ∀ (l : List Station) (groups : List (String × List Station)),
      (∀ g ∈ groups, g.1 ≠ "") →
      ∀ g ∈ l.foldl
        (fun groups station =>
          match station.basin_name with
          | none => groups
          | some raw =>
            let name := jsTrim raw
            if name = "" then groups
            else mapSet groups name (mapGetD groups name ++ [station]))
        groups, g.1 ≠ "" by
    intro g hg
    exact h stations [] (by simp) g hg
  intro l
  induction l with
  | nil => intro groups hinv g hg; exact hinv g hg
  | cons station rest ih =>
    intro groups hinv g hg
    rw [List.foldl_cons] at hg
    refine ih _ ?_ g hg
    cases hb : station.basin_name with
    | none => simpa [hb] using hinv
    | some raw =>
      simp only [hb]
      by_cases hname : jsTrim raw = ""
      · simpa [hname] using hinv
      · rw [if_neg hname]
        intro g2 hg2
        rcases mem_mapSet hg2 with h1 | h1
        · rw [h1]
          exact hname
        · exact hinv g2 h1

theorem basinSearchIndex_names_ne_empty (norm : String → String) (stations : List Station) :
    ∀ e ∈ basinSearchIndex norm stations, e.name ≠ "" := by
  intro e he
  unfold basinSearchIndex at he
  obtain ⟨g, hg, hge⟩ := List.mem_map.mp he
  rw [← hge]
  exact basinGroups_keys_ne_empty stations g hg

/-- C1: the resolver performs a strict staged basin search over the whole
basin index (first exact hit on the normalized name, else first hit whose
normalized name starts with the keyword, else first hit whose normalized
name contains it); any basin qualifying at any stage wins over every
station match, and only when no basin entry qualifies is the station index
consulted.  The index well-formedness hypothesis (non-empty display names)
is satisfied by the index the program builds. -/
theorem c1_basin_staged_priority (idx : List BasinSearchIndexItem)
    (sidx : List StationSearchIndexItem) (k : String)
    (hwf : ∀ e ∈ idx, e.name ≠ "") :
    ((∃ e ∈ idx, jsIncludes e.normalizedName k = true) →
      ∃ nm, basinStagedMatch idx k = some nm ∧
        ∀ sidx2 : List StationSearchIndexItem, resolveKeyword idx sidx2 k = .basin nm) ∧
    ((∀ e ∈ idx, jsIncludes e.normalizedName k = false) →
      basinStagedMatch idx k = none ∧
      resolveKeyword idx sidx k = stationSinglePass sidx k) ∧
    (∀ nm, basinStagedMatch idx k = some nm →
      ((idx.find? fun e => e.normalizedName == k).map (fun e => e.name) = some nm ∨
       ((idx.find? fun e => e.normalizedName == k) = none ∧
        (idx.find? fun e => jsStartsWith e.normalizedName k).map (fun e => e.name) = some nm) ∨
       ((idx.find? fun e => e.normalizedName == k) = none ∧
        (idx.find? fun e => jsStartsWith e.normalizedName k) = none ∧
        (idx.find? fun e => jsIncludes e.normalizedName k).map (fun e => e.name) = some nm))) ∧
    (∀ (norm : String → String) (stations : List Station),
      ∀ e ∈ basinSearchIndex norm stations, e.name ≠ "") := by
  refine ⟨?_, ?_, ?_, basinSearchIndex_names_ne_empty⟩
  · rintro ⟨e0, he0, hinc⟩
    have hbasin : ∃ e1, basinStagedMatch idx k = some e1.name ∧ e1 ∈ idx := by
      unfold basinStagedMatch
      cases h1 : idx.find? (fun e => e.normalizedName == k) with
      | some e1 => exact ⟨e1, rfl, List.mem_of_find?_eq_some h1⟩
      | none =>
        cases h2 : idx.find? (fun e => jsStartsWith e.normalizedName k) with
        | some e2 => exact ⟨e2, rfl, List.mem_of_find?_eq_some h2⟩
        | none =>
          have h3 : (idx.find? fun e => jsIncludes e.normalizedName k).isSome :=
            List.find?_isSome.mpr ⟨e0, he0, hinc⟩
          obtain ⟨e3, he3⟩ := Option.isSome_iff_exists.mp h3
          exact ⟨e3, by rw [he3]; rfl, List.mem_of_find?_eq_some he3⟩
    obtain ⟨e1, hbm, he1⟩ := hbasin
    refine ⟨e1.name, hbm, fun sidx2 => ?_⟩
    unfold resolveKeyword
    rw [hbm]
    show (if e1.name = "" then stationSinglePass sidx2 k
        else ResolveResult.basin e1.name) = ResolveResult.basin e1.name
    rw [if_neg (hwf e1 he1)]
  · intro hall
    have h1 : idx.find? (fun e => e.normalizedName == k) = none := by
      rw [List.find?_eq_none]
      intro e he hbeq
      exact absurd (hall e he) (by simp [jsIncludes_of_beq hbeq])
    have h2 : idx.find? (fun e => jsStartsWith e.normalizedName k) = none := by
      rw [List.find?_eq_none]
      intro e he hsw
      exact absurd (hall e he) (by simp [jsIncludes_of_jsStartsWith hsw])
    have h3 : idx.find? (fun e => jsIncludes e.normalizedName k) = none := by
      rw [List.find?_eq_none]
      intro e he hin
      exact absurd (hall e he) (by simp [hin])
    have hbm : basinStagedMatch idx k = none := by
      unfold basinStagedMatch
      rw [h1, h2, h3]
      rfl
    refine ⟨hbm, ?_⟩
    unfold resolveKeyword
    rw [hbm]
  · intro nm hbm
    unfold basinStagedMatch at hbm
    cases h1 : idx.find? (fun e => e.normalizedName == k) with
    | some e1 =>
      rw [h1] at hbm
      exact Or.inl (by simpa using hbm)
    | none =>
      rw [h1] at hbm
      cases h2 : idx.find? (fun e => jsStartsWith e.normalizedName k) with
      | some e2 =>
        rw [h2] at hbm
        exact Or.inr (Or.inl ⟨rfl, by simpa using hbm⟩)
      | none =>
        rw [h2] at hbm
        exact Or.inr (Or.inr ⟨rfl, rfl, by simpa using hbm⟩)

/-- C1 witness: a basin matching the keyword only as a substring still beats
every station. -/
theorem c1_basin_staged_priority_witness :
    resolveKeyword [⟨"Okitama", "okitama"⟩] [] "kita" = ResolveResult.basin "Okitama" := by
  have h := c1_basin_staged_priority [⟨"Okitama", "okitama"⟩] [] "kita"
    (by intro e he; fin_cases he; decide)
  obtain ⟨nm, hm, hall⟩ := h.1 ⟨⟨"Okitama", "okitama"⟩, by simp, by decide⟩
  have hcomp : basinStagedMatch [⟨"Okitama", "okitama"⟩] "kita" = some "Okitama" := by decide
  rw [hm] at hcomp
  have hnm : nm = "Okitama" := Option.some_injective _ hcomp
  have h2 := hall []
  rw [hnm] at h2
  exact h2

/-- C2: when no basin matched, the station result is the first station in
index iteration order passing the single-pass equals-or-contains test; the
equality disjunct is absorbed by containment (no separate equality stage),
so an earlier containment hit is returned even when a later entry matches
exactly, and only when every entry fails does the resolver report no
match. -/
theorem c2_station_first_single_pass (idx : List BasinSearchIndexItem)
    (sidx : List StationSearchIndexItem) (k : String)
    (hnb : ∀ e ∈ idx, jsIncludes e.normalizedName k = false) :
    resolveKeyword idx sidx k = stationSinglePass sidx k ∧
    (∀ pre a rest, sidx = pre ++ a :: rest →
      (∀ b ∈ pre, stationSingleTest k b = false) →
      stationSingleTest k a = true →
      stationSinglePass sidx k = .station a.station) ∧
    (∀ it : StationSearchIndexItem,
      stationSingleTest k it = (it.names.any fun name => jsIncludes name k)) ∧
    (stationSinglePass sidx k = .noMatch ↔ ∀ it ∈ sidx, stationSingleTest k it = false) := by
  refine ⟨?_, ?_, ?_, ?_⟩
  · have h1 : idx.find? (fun e => e.normalizedName == k) = none := by
      rw [List.find?_eq_none]
      intro e he hbeq
      exact absurd (hnb e he) (by simp [jsIncludes_of_beq hbeq])
    have h2 : idx.find? (fun e => jsStartsWith e.normalizedName k) = none := by
      rw [List.find?_eq_none]
      intro e he hsw
      exact absurd (hnb e he) (by simp [jsIncludes_of_jsStartsWith hsw])
    have h3 : idx.find? (fun e => jsIncludes e.normalizedName k) = none := by
      rw [List.find?_eq_none]
      intro e he hin
      exact absurd (hnb e he) (by simp [hin])
    have hbm : basinStagedMatch idx k = none := by
      unfold basinStagedMatch
      rw [h1, h2, h3]
      rfl
    unfold resolveKeyword
    rw [hbm]
  · intro pre a rest hsplit hpre ha
    unfold stationSinglePass
    rw [hsplit, List.find?_append]
    have hp : pre.find? (stationSingleTest k) = none := by
      rw [List.find?_eq_none]
      intro b hb hbt
      rw [hpre b hb] at hbt
      exact absurd hbt (by simp)
    rw [hp, Option.none_or, List.find?_cons_of_pos _ ha]
  · intro it
    unfold stationSingleTest
    induction it.names with
    | nil => rfl
    | cons n ns ih =>
      rw [List.any_cons, List.any_cons, ih]
      by_cases hb : (n == k) = true
      · rw [hb, jsIncludes_of_beq hb]
        simp
      · rw [Bool.eq_false_iff.mpr hb]
        simp
  · unfold stationSinglePass
    cases hf : sidx.find? (stationSingleTest k) with
    | some it =>
      simp only
      constructor
      · intro h
        exact absurd h (by simp)
      · intro hall
        have := List.find?_some hf
        rw [hall it (List.mem_of_find?_eq_some hf)] at this
        exact absurd this (by simp)
    | none =>
      simp only
      constructor
      · intro _
        intro it hit
        have := List.find?_eq_none.mp hf it hit
        exact Bool.eq_false_iff.mpr this
      · intro _
        trivial

/-- C2 witness: a station with only a containment hit listed earlier shadows
a later station whose name equals the keyword exactly. -/
theorem c2_station_first_single_pass_witness :
    stationSinglePass
      [⟨⟨"A", none, none, none, none, some "Tonegawa", none, none, none, 1⟩, ["tonegawa"]⟩,
       ⟨⟨"B", none, none, none, none, some "Tone", none, none, none, 1⟩, ["tone"]⟩]
      "tone"
      = ResolveResult.station ⟨"A", none, none, none, none, some "Tonegawa", none, none, none, 1⟩ := by
  have h := c2_station_first_single_pass []
    [⟨⟨"A", none, none, none, none, some "Tonegawa", none, none, none, 1⟩, ["tonegawa"]⟩,
     ⟨⟨"B", none, none, none, none, some "Tone", none, none, none, 1⟩, ["tone"]⟩]
    "tone" (by intro e he; simp at he)
  exact h.2.1 []
    ⟨⟨"A", none, none, none, none, some "Tonegawa", none, none, none, 1⟩, ["tonegawa"]⟩
    [⟨⟨"B", none, none, none, none, some "Tone", none, none, none, 1⟩, ["tone"]⟩]
    rfl (by intro b hb; simp at hb) (by decide)

/-- C8: on empty trimmed input, and likewise when the map target is not
ready, performSearch returns false with a hint distinct from the no-match
hint, keeps the committed station tab, basin tab and active tab, and resets
only the preview and the selected search item. -/
theorem c8_input_error_preserves_selection (norm : String → String)
    (getDisplayName : Station → String) (bg : List (String × List Station))
    (idx : List BasinSearchIndexItem) (sidx : List StationSearchIndexItem)
    (rawKeyword : String) (s : UiState) :
    (jsTrim rawKeyword = "" →
      performSearch norm getDisplayName bg idx sidx rawKeyword s
        = (false, { s with
            selectedSearchItem := none
            previewStationId := none
            searchHint := "Please enter a basin / station name." }) ∧
      (false, { s with
            selectedSearchItem := none
            previewStationId := none
            searchHint := "Please enter a basin / station name." }).2.stationTab
          = s.stationTab ∧
      "Please enter a basin / station name." ≠ noMatchHint) ∧
    (jsTrim rawKeyword ≠ "" → s.mapReady = false →
      performSearch norm getDisplayName bg idx sidx rawKeyword s
        = (false, { s with
            selectedSearchItem := none
            previewStationId := none
            searchHint := "Map is not ready yet. Please try again shortly." }) ∧
      "Map is not ready yet. Please try again shortly." ≠ noMatchHint) := by
  constructor
  · intro hempty
    refine ⟨?_, rfl, by decide⟩
    unfold performSearch
    rw [if_pos hempty]
  · intro hne hready
    refine ⟨?_, by decide⟩
    unfold performSearch
    rw [if_neg hne, hready]
    rfl

/-- C8 witness: whitespace-only input against a state with a committed
station selection. -/
theorem c8_input_error_preserves_selection_witness :
    (performSearch id (fun _ => "") [] [] [] "   "
      ⟨true, "old", none, some "p", some "S1",
        some ⟨"S1", none, none, none, none, none, none, none, none, 1⟩,
        some ⟨"Arakawa", 3⟩, some TabKind.station⟩).2.stationTab
      = some ⟨"S1", none, none, none, none, none, none, none, none, 1⟩ := by
  have h := c8_input_error_preserves_selection id (fun _ => "") [] [] [] "   "
    ⟨true, "old", none, some "p", some "S1",
      some ⟨"S1", none, none, none, none, none, none, none, none, 1⟩,
      some ⟨"Arakawa", 3⟩, some TabKind.station⟩
  have h2 := h.1 (by decide)
  rw [h2.1]

/-- C3 witness: a constant parse sends all four example points to January.
-/
theorem c3_monthlyFrequency_complete_witness :
    ((monthlyFrequency (fun _ => some (0 : Fin 12)) examplePeakSeries).map (·.count)).sum
      = 4 := by
  have h := c3_monthlyFrequency_complete (fun _ => some (0 : Fin 12)) examplePeakSeries
  rw [h.2.2.1]
  decide

/-- C4 witness: the spec example evaluated through the theorem. -/
theorem c4_peakDistribution_stable_ranked_witness :
    peakDistribution examplePeakSeries = [⟨1, 7⟩, ⟨2, 7⟩, ⟨3, 3⟩, ⟨4, 1⟩] := by
  have h := c4_peakDistribution_stable_ranked examplePeakSeries
  exact h.2.2.2.2.2.1

/-! ### Helper lemmas for the suggestion ranker -/

theorem sortStr_sorted (l : List String) : List.Pairwise strLe (sortStr l) :=
  List.sorted_insertionSort strLe l

theorem sortStr_perm (l : List String) : (sortStr l).Perm l :=
  List.perm_insertionSort strLe l

theorem suggestFold_nodup (norm : String → String) (keyword : String)
    (l : List Station) (acc : List String) (hacc : acc.Nodup) :
    (l.foldl
      (fun acc station =>
        match station.station_name with
        | none => acc
        | some raw =>
          let name := jsTrim raw
          if name = "" then acc
          else if jsStartsWith (norm name) keyword then
            (if name ∈ acc then acc else acc ++ [name])
          else acc)
      acc).Nodup := by
  induction l generalizing acc with
  | nil => exact hacc
  | cons station rest ih =>
    rw [List.foldl_cons]
    apply ih
    cases hb : station.station_name with
    | none => exact hacc
    | some raw =>
      simp only
      by_cases h1 : jsTrim raw = ""
      · rw [if_pos h1]
        exact hacc
      · rw [if_neg h1]
        by_cases h2 : jsStartsWith (norm (jsTrim raw)) keyword = true
        · rw [if_pos h2]
          by_cases h3 : jsTrim raw ∈ acc
          · rw [if_pos h3]
            exact hacc
          · rw [if_neg h3, ← List.concat_eq_append]
            exact List.Nodup.concat h3 hacc
        · rw [if_neg h2]
          exact hacc

theorem suggestFold_mem (norm : String → String) (keyword : String)
    (l : List Station) (acc : List String) :
    ∀ x ∈ l.foldl
      (fun acc station =>
        match station.station_name with
        | none => acc
        | some raw =>
          let name := jsTrim raw
          if name = "" then acc
          else if jsStartsWith (norm name) keyword then
            (if name ∈ acc then acc else acc ++ [name])
          else acc)
      acc,
      x ∈ acc ∨ ∃ st ∈ l, ∃ raw, st.station_name = some raw ∧ jsTrim raw = x ∧ x ≠ "" ∧
        jsStartsWith (norm x) keyword = true := by
  induction l generalizing acc with
  | nil =>
    intro x hx
    exact Or.inl hx
  | cons station rest ih =>
    intro x hx
    rw [List.foldl_cons] at hx
    rcases ih _ x hx with hstep | ⟨st, hst, raw, hraw, htrim, hne, hsw⟩
    · cases hb : station.station_name with
      | none =>
        rw [hb] at hstep
        exact Or.inl hstep
      | some raw =>
        rw [hb] at hstep
        simp only at hstep
        by_cases h1 : jsTrim raw = ""
        · rw [if_pos h1] at hstep
          exact Or.inl hstep
        · rw [if_neg h1] at hstep
          by_cases h2 : jsStartsWith (norm (jsTrim raw)) keyword = true
          · rw [if_pos h2] at hstep
            by_cases h3 : jsTrim raw ∈ acc
            · rw [if_pos h3] at hstep
              exact Or.inl hstep
            · rw [if_neg h3] at hstep
              rcases List.mem_append.mp hstep with h4 | h4
              · exact Or.inl h4
              · have hx2 : x = jsTrim raw := by simpa using h4
                subst hx2
                exact Or.inr ⟨station, List.mem_cons_self _ _, raw, hb, rfl, h1, h2⟩
          · rw [if_neg h2] at hstep
            exact Or.inl hstep
    · exact Or.inr ⟨st, List.mem_cons_of_mem _ hst, raw, hraw, htrim, hne, hsw⟩

/-- C6: suggestions are the basin block before the station block, each
block sorted ascending and capped at eight (sixteen total); basin
suggestions are exactly the display names of index entries whose normalized
name starts with the normalized keyword (prefix only), and station
suggestions come only from trimmed non-empty primary names prefix-matching
the keyword, deduplicated by raw name; an empty normalized keyword yields
the empty list. -/
theorem c6_suggestion_shape (norm : String → String) (idx : List BasinSearchIndexItem)
    (stations : List Station) (searchText : String) :
    (norm searchText = "" → searchSuggestions norm idx stations searchText = []) ∧
    searchSuggestions norm idx stations searchText
      = (basinSuggestions norm idx searchText).map
          (fun value => ⟨value, SuggestionType.Basin⟩)
        ++ (stationNameSuggestions norm stations searchText).map
          (fun value => ⟨value, SuggestionType.Station⟩) ∧
    (basinSuggestions norm idx searchText).length ≤ 8 ∧
    (stationNameSuggestions norm stations searchText).length ≤ 8 ∧
    (searchSuggestions norm idx stations searchText).length ≤ 16 ∧
    List.Pairwise strLe (basinSuggestions norm idx searchText) ∧
    List.Pairwise strLe (stationNameSuggestions norm stations searchText) ∧
    (stationNameSuggestions norm stations searchText).Nodup ∧
    (∀ x ∈ basinSuggestions norm idx searchText,
      ∃ e ∈ idx, e.name = x ∧ jsStartsWith e.normalizedName (norm searchText) = true) ∧
    (norm searchText ≠ "" →
      basinSuggestions norm idx searchText
        = (sortStr ((idx.filter fun e =>
            jsStartsWith e.normalizedName (norm searchText)).map fun e => e.name)).take 8 ∧
      (sortStr ((idx.filter fun e =>
          jsStartsWith e.normalizedName (norm searchText)).map fun e => e.name)).Perm
        ((idx.filter fun e =>
          jsStartsWith e.normalizedName (norm searchText)).map fun e => e.name)) ∧
    (∀ x ∈ stationNameSuggestions norm stations searchText,
      ∃ st ∈ stations, ∃ raw, st.station_name = some raw ∧ jsTrim raw = x ∧ x ≠ "" ∧
        jsStartsWith (norm x) (norm searchText) = true) := by
  have hbs : ∀ h : ¬ norm searchText = "",
      basinSuggestions norm idx searchText
        = (sortStr ((idx.filter fun e =>
            jsStartsWith e.normalizedName (norm searchText)).map fun e => e.name)).take 8 := by
    intro h
    unfold basinSuggestions
    rw [if_neg h]
  have hss : ∀ h : ¬ norm searchText = "",
      stationNameSuggestions norm stations searchText
        = (sortStr (stations.foldl
            (fun acc station =>
              match station.station_name with
              | none => acc
              | some raw =>
                let name := jsTrim raw
                if name = "" then acc
                else if jsStartsWith (norm name) (norm searchText) then
                  (if name ∈ acc then acc else acc ++ [name])
                else acc)
            [])).take 8 := by
    intro h
    unfold stationNameSuggestions
    rw [if_neg h]
  refine ⟨?_, rfl, ?_, ?_, ?_, ?_, ?_, ?_, ?_, ?_, ?_⟩
  · intro h
    simp [searchSuggestions, basinSuggestions, stationNameSuggestions, h]
  · by_cases h : norm searchText = ""
    · simp [basinSuggestions, h]
    · rw [hbs h]
      exact List.length_take_le 8 _
  · by_cases h : norm searchText = ""
    · simp [stationNameSuggestions, h]
    · rw [hss h]
      exact List.length_take_le 8 _
  · rw [show searchSuggestions norm idx stations searchText
        = (basinSuggestions norm idx searchText).map
            (fun value => ⟨value, SuggestionType.Basin⟩)
          ++ (stationNameSuggestions norm stations searchText).map
            (fun value => ⟨value, SuggestionType.Station⟩) from rfl]
    rw [List.length_append, List.length_map, List.length_map]
    have h1 : (basinSuggestions norm idx searchText).length ≤ 8 := by
      by_cases h : norm searchText = ""
      · simp [basinSuggestions, h]
      · rw [hbs h]
        exact List.length_take_le 8 _
    have h2 : (stationNameSuggestions norm stations searchText).length ≤ 8 := by
      by_cases h : norm searchText = ""
      · simp [stationNameSuggestions, h]
      · rw [hss h]
        exact List.length_take_le 8 _
    omega
  · by_cases h : norm searchText = ""
    · simp [basinSuggestions, h]
    · rw [hbs h]
      exact List.Pairwise.sublist (List.take_sublist _ _) (sortStr_sorted _)
  · by_cases h : norm searchText = ""
    · simp [stationNameSuggestions, h]
    · rw [hss h]
      exact List.Pairwise.sublist (List.take_sublist _ _) (sortStr_sorted _)
  · by_cases h : norm searchText = ""
    · simp [stationNameSuggestions, h]
    · rw [hss h]
      refine List.Nodup.sublist (List.take_sublist _ _) ?_
      refine (sortStr_perm _).nodup_iff.mpr ?_
      exact suggestFold_nodup norm (norm searchText) stations [] List.nodup_nil
  · intro x hx
    by_cases h : norm searchText = ""
    · rw [show basinSuggestions norm idx searchText = [] from by simp [basinSuggestions, h]]
        at hx
      exact absurd hx (List.not_mem_nil x)
    · rw [hbs h] at hx
      have hx2 : x ∈ sortStr ((idx.filter fun e =>
          jsStartsWith e.normalizedName (norm searchText)).map fun e => e.name) :=
        (List.take_sublist _ _).subset hx
      have hx3 : x ∈ (idx.filter fun e =>
          jsStartsWith e.normalizedName (norm searchText)).map fun e => e.name :=
        (sortStr_perm _).subset hx2
      obtain ⟨e, he, hname⟩ := List.mem_map.mp hx3
      obtain ⟨hei, hesw⟩ := List.mem_filter.mp he
      exact ⟨e, hei, hname, hesw⟩
  · intro h
    exact ⟨hbs h, sortStr_perm _⟩
  · intro x hx
    by_cases h : norm searchText = ""
    · rw [show stationNameSuggestions norm stations searchText = [] from by
        simp [stationNameSuggestions, h]] at hx
      exact absurd hx (List.not_mem_nil x)
    · rw [hss h] at hx
      have hx2 := (sortStr_perm _).subset ((List.take_sublist _ _).subset hx)
      rcases suggestFold_mem norm (norm searchText) stations [] x hx2 with h1 | h1
      · exact absurd h1 (List.not_mem_nil x)
      · exact h1

/-- C6 witness: one basin and one station both prefix-matching the
keyword. -/
theorem c6_suggestion_shape_witness :
    basinSuggestions id [⟨"Shinano", "shinano"⟩] "shin"
      = (sortStr ((([⟨"Shinano", "shinano"⟩] : List BasinSearchIndexItem).filter fun e =>
          jsStartsWith e.normalizedName (id "shin")).map fun e => e.name)).take 8 := by
  have h := c6_suggestion_shape id [⟨"Shinano", "shinano"⟩] [] "shin"
  exact (h.2.2.2.2.2.2.2.2.2.1 (by decide)).1

end FF
